import Mathlib

/-!
Verification of the SH110X OLED driver sources.

The model below is a shallow embedding of the repository's C++ sources:
* `drawPixel`, `getPixel`, `clearDisplay` from `src/Adafruit_SH110X.cpp`
  (lines 348-415, 380-382);
* `display` (the dirty-window flush) from `src/unnamed/part_000`
  (lines 222-305);
* the colour constants from the header `src/unnamed/part_002`
  (SH110X_BLACK = 0, SH110X_WHITE = 1, SH110X_INVERSE = 2).

Machine integers are modelled as `Nat`/`Int` with explicit reductions
modulo 256 / 65536 where the C code truncates (uint8_t / uint16_t casts).
The framebuffer is a total function `Nat → Nat` from byte index to byte
value; bus transactions are recorded in a transcript list.
-/

namespace SH110X

/-- Truncation of a C `int`-valued expression when stored into a `uint8_t`
(two's-complement low byte; `Int.emod` by 256 is always non-negative). -/
def toU8 (i : Int) : Nat := (i % 256).toNat

/-- Logical width `width()` as reported by Adafruit_GFX: for odd rotations
the logical dimensions are the swapped physical ones. -/
def logicalW (W H rot : Nat) : Nat := if rot % 2 = 1 then H else W

/-- Logical height `height()` as reported by Adafruit_GFX. -/
def logicalH (W H rot : Nat) : Nat := if rot % 2 = 1 then W else H

/-- The bounds check `(x >= 0) && (x < width()) && (y >= 0) && (y < height())`
shared by `drawPixel` and `getPixel`. -/
def inBounds (W H rot : Nat) (x y : Int) : Bool :=
  decide (0 ≤ x) && decide (x < (logicalW W H rot : Int)) &&
    decide (0 ≤ y) && decide (y < (logicalH W H rot : Int))

/-- The rotation `switch` of `drawPixel`/`getPixel`
(`src/Adafruit_SH110X.cpp` lines 351-364 and 398-411): case 1 swaps and
then reflects `x` at `WIDTH`, case 2 reflects both axes, case 3 swaps and
then reflects `y` at `HEIGHT`; any other value leaves `(x, y)` unchanged. -/
def transform (rot W H : Nat) (x y : Int) : Int × Int :=
  match rot with
  | 1 => let (x, y) := (y, x); ((W : Int) - x - 1, y)
  | 2 => ((W : Int) - x - 1, (H : Int) - y - 1)
  | 3 => let (x, y) := (y, x); (x, (H : Int) - y - 1)
  | _ => (x, y)

/-- The coordinate transform exactly as the specification words it
(spec section 4.1), for comparison with `transform`:
90 deg: swap `(x,y)` then `x-new = W - y - 1`, `y-new = x`;
180 deg: `x-new = W - x - 1`, `y-new = H - y - 1`;
270 deg: swap `(x,y)` then `y-new = H - x - 1`. -/
def transformSpec (rot W H : Nat) (x y : Int) : Int × Int :=
  match rot with
  | 1 => ((W : Int) - y - 1, x)
  | 2 => ((W : Int) - x - 1, (H : Int) - y - 1)
  | 3 => (y, (H : Int) - x - 1)
  | _ => (x, y)

/-- The colour `switch` of `drawPixel` applied to one framebuffer byte `b`
with bit position `k = y & 7`:
`SH110X_WHITE` (1) sets the bit, `SH110X_BLACK` (0) clears it
(`b &= ~(1 << k)` on a `uint8_t`, i.e. `b &&& (255 - 2^k)`),
`SH110X_INVERSE` (2) toggles it; the switch has no default case, so any
other colour value leaves the byte unchanged. -/
def pixelWrite (b k color : Nat) : Nat :=
  match color with
  | 1 => b ||| (1 <<< k)
  | 0 => b &&& (255 - (1 <<< k))
  | 2 => b ^^^ (1 <<< k)
  | _ => b

/-- Byte index `x + (y / 8) * WIDTH` of a physical coordinate. -/
def bufIdx (W : Nat) (p : Int × Int) : Nat := (p.1 + p.2.tdiv 8 * (W : Int)).toNat

/-- Bit index `y & 7` of a physical coordinate. -/
def bitIdx (p : Int × Int) : Nat := (p.2.tmod 8).toNat

/-- `Adafruit_SH110X::drawPixel` (`src/Adafruit_SH110X.cpp` lines 348-371):
bounds check against the logical dimensions, rotate, then apply the colour
switch to bit `y & 7` of `buffer[x + (y/8)*WIDTH]`. -/
def drawPixel (W H rot : Nat) (buf : Nat → Nat) (x y : Int) (color : Nat) :
    Nat → Nat :=
  if inBounds W H rot x y then
    let p := transform rot W H x y
    fun i => if i = bufIdx W p then pixelWrite (buf i) (bitIdx p) color else buf i
  else buf

/-- `Adafruit_SH110X::getPixel` (`src/Adafruit_SH110X.cpp` lines 395-415):
same bounds check and rotation, returns
`buffer[x + (y/8)*WIDTH] & (1 << (y & 7))` converted to `bool`;
out of range returns `false`. -/
def getPixel (W H rot : Nat) (buf : Nat → Nat) (x y : Int) : Bool :=
  if inBounds W H rot x y then
    let p := transform rot W H x y
    decide (buf (bufIdx W p) &&& (1 <<< bitIdx p) ≠ 0)
  else false

/-- The dirty window `(window_x1, window_y1, window_x2, window_y2)` kept in
`int16_t` fields; the empty sentinel state is `(1024, 1024, -1, -1)`. -/
structure Window where
  x1 : Int
  y1 : Int
  x2 : Int
  y2 : Int
deriving DecidableEq

/-- Framebuffer plus dirty window. -/
structure OledState where
  buffer : Nat → Nat
  win : Window

/-- Modelled from the spec: the dirty-window growth
`x1 = min(x1, x), y1 = min(y1, y), x2 = max(x2, x), y2 = max(y2, y)`
(spec section 4.3) performed by the pixel-write path of the
`Adafruit_GrayOLED` base class, which is not among the source files; the
coordinate registered is the physical (post-rotation) one. -/
def markDirty (w : Window) (x y : Int) : Window :=
  { x1 := min w.x1 x, y1 := min w.y1 y, x2 := max w.x2 x, y2 := max w.y2 y }

/-- Pixel write on the full state: the buffer mutation of `drawPixel` plus,
when the coordinate is in bounds, dirty-window growth at the physical
coordinate (the dirty-window part is modelled from the spec, section 4.2:
on success the written physical coordinate is registered with the
tracker). Out-of-bounds coordinates change nothing. -/
def setPixelS (W H rot : Nat) (st : OledState) (x y : Int) (color : Nat) :
    OledState :=
  if inBounds W H rot x y then
    let p := transform rot W H x y
    { buffer := fun i =>
        if i = bufIdx W p then pixelWrite (st.buffer i) (bitIdx p) color
        else st.buffer i,
      win := markDirty st.win p.1 p.2 }
  else st

/-- `getPixel` read on the full state. -/
def getPixelS (W H rot : Nat) (st : OledState) (x y : Int) : Bool :=
  getPixel W H rot st.buffer x y

/-- `clearDisplay`: `memset(buffer, 0, WIDTH * ((HEIGHT + 7) / 8))`
(`src/Adafruit_SH110X.cpp` lines 380-382).  The dirty-window part is
modelled from the spec (section 4.2): the variant of `clearDisplay` used
with the dirty-window flush lives in the `Adafruit_GrayOLED` base class,
which is not among the source files; per the spec it zeroes the entire
buffer and marks the entire buffer rectangle dirty. -/
def clearDisplayS (W H : Nat) (_st : OledState) : OledState :=
  { buffer := fun _ => 0,
    win := { x1 := 0, y1 := 0, x2 := (W : Int) - 1, y2 := (H : Int) - 1 } }

/- ### The flush (`Adafruit_SH110X::display`, `src/unnamed/part_000`
lines 222-305)

The i2c device is modelled as `Option Nat` carrying its `maxBufferSize()`;
`none` models a null `i2c_dev` pointer (an SPI-constructed object).  Bus
transactions are recorded in order; each `i2c_dev->write` call consumes
one slot of the success oracle `busOk`, whose value the source code never
inspects.  `setSpeed` calls and `yield()` are not bus writes and are not
recorded.  The source also computes `uint8_t last_page = (window_y2 + 7) / 8`
(line 252) but never uses it; see `lastPageDead` below. -/

/-- One raw bus transaction of the flush: `cmd` is the 4-byte page-select
write `{0x00, SH110X_SETPAGEADDR + p, 0x10 + (page_start >> 4),
page_start & 0xF}`; `data` is one chunked framebuffer write (the payload
after the prepended 0x40 data/command discriminator byte). -/
inductive RawEvt
  | cmd (bytes : List Nat)
  | data (bytes : List Nat)
deriving DecidableEq

/-- A bus transaction together with the success result the transport
returned for it (which the source code ignores). -/
inductive BusEvt
  | cmd (bytes : List Nat) (ok : Bool)
  | data (bytes : List Nat) (ok : Bool)
deriving DecidableEq

/-- Outcome of a `display()` call: `nullDeref` models the undefined
behaviour of `i2c_dev->maxBufferSize()` on a null pointer (line 237 runs
before the `if (i2c_dev)` check of line 268); `hang` models the
non-terminating chunk loop when the `uint8_t` cast of `maxbuff` is zero;
`done` carries the transcript and the window value after the call. -/
inductive DispOut
  | nullDeref
  | hang
  | done (trace : List BusEvt) (win : Window)
deriving DecidableEq

/-- Bytes `buffer[ptr..ptr+n)` of the framebuffer. -/
def payloadBytes (buf : Nat → Nat) (ptr n : Nat) : List Nat :=
  (List.range n).map fun i => buf (ptr + i)

/-- The chunk loop `while (bytes_remaining) { to_write = min(bytes_remaining,
(uint8_t)maxbuff); write; ptr += to_write; bytes_remaining -= to_write; }`.
The fuel argument starts at `rem`; since every iteration with `mb8 ≥ 1`
sends at least one byte, the fuel is exhausted with bytes remaining only
when `mb8 = 0`, which in C is an infinite loop (`none`). -/
def chunkAux (buf : Nat → Nat) (mb8 : Nat) :
    Nat → Nat → Nat → Option (List (List Nat))
  | _, _, 0 => some []
  | 0, _, _ + 1 => none
  | fuel + 1, ptr, rem + 1 =>
    let tw := min (rem + 1) mb8
    if tw = 0 then none
    else (chunkAux buf mb8 fuel (ptr + tw) (rem + 1 - tw)).map
      (payloadBytes buf ptr tw :: ·)

/-- Data chunks sent for one page: starting index `ptr`, `rem` bytes,
chunk bound `mb8 = (uint8_t)maxbuff`. -/
def chunks (buf : Nat → Nat) (ptr rem mb8 : Nat) : Option (List (List Nat)) :=
  chunkAux buf mb8 rem ptr rem

/-- The per-page loop `for (uint8_t p = first_page; p < pages; p++)`
(lines 272-292): per page, recompute `bytes_remaining`, advance `ptr` to
`buffer + p * bytes_per_page + page_start`, send the 4-byte page-select
command, then stream the chunks. -/
def pageLoop (buf : Nat → Nat) (bpp pstart rem mb8 : Nat) :
    List Nat → Option (List RawEvt)
  | [] => some []
  | p :: rest =>
    let ptr := p * bpp + pstart
    let cmd : List Nat := [0, (176 + p) % 256, 16 + pstart / 16, pstart % 16]
    match chunks buf ptr rem mb8 with
    | none => none
    | some ds =>
      (pageLoop buf bpp pstart rem mb8 rest).map
        fun tail => RawEvt.cmd cmd :: (ds.map RawEvt.data ++ tail)

/-- Pair each transaction, starting at call index `i`, with the success
value the transport oracle returns for it. -/
def attachOkFrom (i : Nat) (busOk : Nat → Bool) : List RawEvt → List BusEvt
  | [] => []
  | RawEvt.cmd b :: rest => BusEvt.cmd b (busOk i) :: attachOkFrom (i + 1) busOk rest
  | RawEvt.data b :: rest => BusEvt.data b (busOk i) :: attachOkFrom (i + 1) busOk rest

/-- Pair each transaction with the success value the transport oracle
returns for it (in call order). -/
def attachOk (raw : List RawEvt) (busOk : Nat → Bool) : List BusEvt :=
  attachOkFrom 0 busOk raw

/-- Forget the success results again. -/
def stripOk : BusEvt → RawEvt
  | BusEvt.cmd b _ => RawEvt.cmd b
  | BusEvt.data b _ => RawEvt.data b

/-- The dead store `uint8_t last_page = (window_y2 + 7) / 8` of line 252:
computed by the source and never read afterwards. -/
def lastPageDead (y2 : Int) : Nat := toU8 ((y2 + 7).tdiv 8)

/-- `Adafruit_SH110X::display` from `src/unnamed/part_000` lines 222-305.
Faithful points: `maxbuff = i2c_dev->maxBufferSize() - 1` is a `uint16_t`
and is computed by dereferencing `i2c_dev` before the `if (i2c_dev)`
branch; `bytes_per_page = WIDTH` and `pages = (HEIGHT + 7) / 8` are
`uint8_t` truncations; `first_page = window_y1 / 8` is an `int` division
stored into `uint8_t`; `page_start = min(bytes_per_page,
(uint8_t)window_x1)`; `page_end = (uint8_t)max(0, (int)window_x2)`;
`bytes_remaining = bytes_per_page - page_start - ((WIDTH - 1) - page_end)`
as `uint8_t`; the chunk bound is `(uint8_t)maxbuff`; every write result is
ignored; the window is reset to `(1024, 1024, -1, -1)` unconditionally at
the end. -/
def displayRaw (W H : Nat) (buf : Nat → Nat) (win : Window)
    (maxBufferSize : Nat) : Option (List RawEvt) :=
  let bpp := W % 256
  let maxbuff := (maxBufferSize + 65535) % 65536
  let first_page := toU8 (win.y1.tdiv 8)
  let pstart := min bpp (toU8 win.x1)
  let pend := toU8 (max 0 win.x2)
  let pages := ((H + 7) / 8) % 256
  let rem := toU8 ((bpp : Int) - (pstart : Int) - (((W : Int) - 1) - (pend : Int)))
  pageLoop buf bpp pstart rem (maxbuff % 256)
    (List.range' first_page (pages - first_page))

def display (W H : Nat) (buf : Nat → Nat) (win : Window) (i2c : Option Nat)
    (busOk : Nat → Bool) : DispOut :=
  match i2c with
  | none => DispOut.nullDeref
  | some maxBufferSize =>
    match displayRaw W H buf win maxBufferSize with
    | none => DispOut.hang
    | some raw => DispOut.done (attachOk raw busOk) ⟨1024, 1024, -1, -1⟩

/-- The sequence of chunk sizes produced by the chunk loop: repeatedly
`min(remaining, mb8)` until the remaining count is exhausted (same fuel
pattern as `chunkAux`). -/
def chunkSizesAux (mb8 : Nat) : Nat → Nat → List Nat
  | _, 0 => []
  | 0, _ + 1 => []
  | fuel + 1, rem + 1 =>
    min (rem + 1) mb8 :: chunkSizesAux mb8 fuel (rem + 1 - min (rem + 1) mb8)

/-- Chunk sizes for a range of `rem` bytes under chunk bound `mb8`. -/
def chunkSizes (rem mb8 : Nat) : List Nat := chunkSizesAux mb8 rem rem

/-- The data chunks of one page (defined value; `chunks` returns exactly
this under `1 ≤ mb8`, see `chunks_eq`). -/
def chunkL (buf : Nat → Nat) (ptr rem mb8 : Nat) : List (List Nat) :=
  (chunks buf ptr rem mb8).getD []

/-- Number of page-select command writes in a flush outcome. -/
def cmdCount (o : DispOut) : Nat :=
  match o with
  | DispOut.done tr _ =>
    (tr.filter fun e => match e with
      | BusEvt.cmd _ _ => true
      | BusEvt.data _ _ => false).length
  | _ => 0

/-- Payload sizes of the data writes of a flush outcome, in send order. -/
def dataSizes (o : DispOut) : List Nat :=
  match o with
  | DispOut.done tr _ =>
    tr.filterMap fun e => match e with
      | BusEvt.data b _ => some b.length
      | BusEvt.cmd _ _ => none
  | _ => []

/-- Select the byte list of a page-select command transaction. -/
def cmdSel : RawEvt → Option (List Nat)
  | RawEvt.cmd b => some b
  | RawEvt.data _ => none

/-- The raw transaction sequence of a flush over a well-formed dirty
window: for each page `p` in `[fp, pg)` one page-select command for page
`p` with column start `cs`, followed by the data chunks of the `wdt`
dirty columns of that page. -/
def goodTrace (buf : Nat → Nat) (W cs wdt fp pg mb8 : Nat) : List RawEvt :=
  (List.range' fp (pg - fp)).bind fun p =>
    RawEvt.cmd [0, (176 + p) % 256, 16 + cs / 16, cs % 16] ::
      (chunkL buf (p * W + cs) wdt mb8).map RawEvt.data

/- ### Bit-level helper lemmas -/

theorem one_shiftLeft_eq_pow (k : Nat) : (1 <<< k) = 2 ^ k := by
  simp [Nat.shiftLeft_eq]

theorem land_two_pow_ne_zero (a k : Nat) :
    ((a &&& 2 ^ k) ≠ 0) ↔ a.testBit k := by
  rw [Nat.and_two_pow]
  cases h : a.testBit k <;> simp [Nat.pos_pow_of_pos, Nat.pow_pos]

theorem mask_testBit_false (k : Nat) (hk : k < 8) :
    (255 - 2 ^ k).testBit k = false := by
  interval_cases k <;> decide

theorem set_clear_land_zero (b k : Nat) (hk : k < 8) :
    ((b &&& (255 - 2 ^ k)) &&& 2 ^ k) = 0 := by
  apply Nat.eq_of_testBit_eq
  intro j
  rcases eq_or_ne j k with rfl | hjk
  · simp [Nat.testBit_land, mask_testBit_false _ hk]
  · simp [Nat.testBit_land, Nat.testBit_two_pow_of_ne (Ne.symm hjk)]

theorem bitIdx_lt8 (p : Int × Int) : bitIdx p < 8 := by
  have h := Int.tmod_lt_of_pos p.2 (by norm_num : (0:Int) < 8)
  unfold bitIdx
  omega

theorem inBounds_iff (W H rot : Nat) (x y : Int) :
    inBounds W H rot x y = true ↔
      0 ≤ x ∧ x < (logicalW W H rot : Int) ∧ 0 ≤ y ∧ y < (logicalH W H rot : Int) := by
  simp [inBounds, and_assoc]

theorem transform_bounds (W H rot : Nat) (x y : Int) (hrot : rot < 4)
    (hin : inBounds W H rot x y = true) :
    0 ≤ (transform rot W H x y).1 ∧ (transform rot W H x y).1 < (W : Int) ∧
      0 ≤ (transform rot W H x y).2 ∧ (transform rot W H x y).2 < (H : Int) := by
  rw [inBounds_iff] at hin
  interval_cases rot <;>
    simp only [transform, logicalW, logicalH] at hin ⊢ <;>
    norm_num at hin ⊢ <;> omega

theorem idx_eq (W : Nat) (p : Int × Int) (h1 : 0 ≤ p.1) (h2 : 0 ≤ p.2) :
    bufIdx W p = p.1.toNat + p.2.toNat / 8 * W ∧ bitIdx p = p.2.toNat % 8 := by
  obtain ⟨a, ha⟩ := Int.eq_ofNat_of_zero_le h1
  obtain ⟨b, hb⟩ := Int.eq_ofNat_of_zero_le h2
  unfold bufIdx bitIdx
  rw [ha, hb]
  constructor
  · have htd : (b : Int).tdiv 8 = ((b / 8 : Nat) : Int) := rfl
    rw [htd]
    have harith : ((a : Int) + ((b / 8 : Nat) : Int) * (W : Int)) =
        ((a + b / 8 * W : Nat) : Int) := by push_cast; ring
    rw [harith, Int.toNat_natCast]
    simp [Int.toNat_natCast]
  · have htm : (b : Int).tmod 8 = ((b % 8 : Nat) : Int) := rfl
    rw [htm, Int.toNat_natCast]
    simp [Int.toNat_natCast]

/-- C4: for every in-bounds logical coordinate and each of the four
rotations, `drawPixel` with SET (SH110X_WHITE) followed by `getPixel`
returns `true`; SET then CLEAR (SH110X_BLACK) returns `false`; applying
INVERT (SH110X_INVERSE) twice leaves `getPixel` equal to its original
value. -/
theorem C4_roundtrip (W H rot : Nat) (buf : Nat → Nat) (x y : Int)
    (_hrot : rot < 4) (hin : inBounds W H rot x y = true) :
    getPixel W H rot (drawPixel W H rot buf x y 1) x y = true ∧
    getPixel W H rot (drawPixel W H rot (drawPixel W H rot buf x y 1) x y 0) x y
      = false ∧
    getPixel W H rot (drawPixel W H rot (drawPixel W H rot buf x y 2) x y 2) x y
      = getPixel W H rot buf x y := by
  have hk : bitIdx (transform rot W H x y) < 8 := bitIdx_lt8 _
  simp only [getPixel, drawPixel, hin, if_true, eq_self_iff_true, ite_true]
  refine ⟨?_, ?_, ?_⟩
  · simp only [pixelWrite, one_shiftLeft_eq_pow, decide_eq_true_eq]
    rw [land_two_pow_ne_zero]
    simp [Nat.testBit_lor, Nat.testBit_two_pow_self]
  · simp only [pixelWrite, one_shiftLeft_eq_pow]
    rw [decide_eq_false_iff_not, not_ne_iff]
    exact set_clear_land_zero _ _ hk
  · simp only [pixelWrite, one_shiftLeft_eq_pow, Nat.xor_cancel_right]

/-- C5: for every in-bounds logical coordinate and each of the four
rotations, the coordinate transform used by `drawPixel` and `getPixel`
equals the specification's formulas (rotation 0 identity; 90: swap then
`x-new = W - y - 1`, `y-new = x`; 180: reflect both; 270: swap then
`y-new = H - x - 1`), and the addressed buffer bit is bit `y-new % 8` of
byte `x-new + (y-new / 8) * W`: `getPixel` reads exactly that bit,
`drawPixel` rewrites exactly that byte through the colour switch and
leaves every other byte unchanged. -/
theorem C5_transform_addressing (W H rot : Nat) (buf : Nat → Nat) (x y : Int)
    (c : Nat) (hrot : rot < 4) (hin : inBounds W H rot x y = true) :
    transform rot W H x y = transformSpec rot W H x y ∧
    getPixel W H rot buf x y =
      (buf ((transformSpec rot W H x y).1.toNat +
        (transformSpec rot W H x y).2.toNat / 8 * W)).testBit
        ((transformSpec rot W H x y).2.toNat % 8) ∧
    drawPixel W H rot buf x y c
        ((transformSpec rot W H x y).1.toNat +
          (transformSpec rot W H x y).2.toNat / 8 * W) =
      pixelWrite
        (buf ((transformSpec rot W H x y).1.toNat +
          (transformSpec rot W H x y).2.toNat / 8 * W))
        ((transformSpec rot W H x y).2.toNat % 8) c ∧
    ∀ i, i ≠ (transformSpec rot W H x y).1.toNat +
        (transformSpec rot W H x y).2.toNat / 8 * W →
      drawPixel W H rot buf x y c i = buf i := by
  have heq : transform rot W H x y = transformSpec rot W H x y := by
    interval_cases rot <;> rfl
  obtain ⟨hb1, _, hb2, _⟩ := transform_bounds W H rot x y hrot hin
  obtain ⟨hidx, hbit⟩ := idx_eq W (transform rot W H x y) hb1 hb2
  rw [← heq, ← hidx, ← hbit]
  refine ⟨heq, ?_, ?_, ?_⟩
  · simp only [getPixel, hin, if_true]
    rcases h : decide (buf (bufIdx W (transform rot W H x y)) &&&
        (1 <<< bitIdx (transform rot W H x y)) ≠ 0) with _ | _
    · have hf := of_decide_eq_false h
      rw [one_shiftLeft_eq_pow, land_two_pow_ne_zero] at hf
      simp only [Bool.not_eq_true] at hf
      exact hf.symm
    · have ht := of_decide_eq_true h
      rw [one_shiftLeft_eq_pow, land_two_pow_ne_zero] at ht
      exact ht.symm
  · simp [drawPixel, hin]
  · intro i hi
    simp [drawPixel, hin, hi]

/-- C6: for every coordinate outside the logical bounds (including
negative values), the pixel write leaves the framebuffer and the dirty
window completely unchanged, and `getPixel` returns `false`. -/
theorem C6_oob_noop (W H rot : Nat) (st : OledState) (x y : Int) (c : Nat)
    (h : inBounds W H rot x y = false) :
    setPixelS W H rot st x y c = st ∧ getPixelS W H rot st x y = false := by
  constructor
  · simp [setPixelS, h]
  · simp [getPixelS, getPixel, h]

/-- C7: after `clearDisplay`, every byte of the framebuffer is zero, every
`getPixel` read returns `false`, and the dirty window covers the full
buffer rectangle `(0, 0, W-1, H-1)`, regardless of the previous state. -/
theorem C7_clear (W H rot : Nat) (st : OledState) :
    (∀ i, (clearDisplayS W H st).buffer i = 0) ∧
    (∀ x y : Int, getPixelS W H rot (clearDisplayS W H st) x y = false) ∧
    (clearDisplayS W H st).win =
      { x1 := 0, y1 := 0, x2 := (W : Int) - 1, y2 := (H : Int) - 1 } := by
  refine ⟨fun i => rfl, fun x y => ?_, rfl⟩
  simp only [getPixelS, getPixel, clearDisplayS]
  split <;> simp

/-- C10: for every in-bounds coordinate and every colour value other than
SH110X_BLACK (0), SH110X_WHITE (1) and SH110X_INVERSE (2), `drawPixel`
leaves every byte of the framebuffer unchanged: the colour switch has no
default branch. -/
theorem C10_unknown_color (W H rot : Nat) (buf : Nat → Nat) (x y : Int)
    (c : Nat) (hin : inBounds W H rot x y = true)
    (hc : c ≠ 0 ∧ c ≠ 1 ∧ c ≠ 2) :
    drawPixel W H rot buf x y c = buf := by
  funext i
  simp only [drawPixel, hin, if_true]
  split
  · rcases c with _ | _ | _ | n
    · exact absurd rfl hc.1
    · exact absurd rfl hc.2.1
    · exact absurd rfl hc.2.2
    · rfl
  · rfl

/-- Witness for C4 at `(W, H, rot) = (128, 64, 0)`, pixel `(10, 20)`. -/
theorem C4_roundtrip_witness :
    (0 : Nat) < 4 ∧ inBounds 128 64 0 10 20 = true ∧
    (getPixel 128 64 0 (drawPixel 128 64 0 (fun _ => 0) 10 20 1) 10 20 = true ∧
     getPixel 128 64 0
       (drawPixel 128 64 0 (drawPixel 128 64 0 (fun _ => 0) 10 20 1) 10 20 0)
       10 20 = false ∧
     getPixel 128 64 0
       (drawPixel 128 64 0 (drawPixel 128 64 0 (fun _ => 0) 10 20 2) 10 20 2)
       10 20 = getPixel 128 64 0 (fun _ => 0) 10 20) :=
  ⟨by decide, by decide, C4_roundtrip 128 64 0 (fun _ => 0) 10 20 (by decide) (by decide)⟩

/-- Witness for C5 at rotation 1 on a 128 x 64 panel, pixel `(3, 5)`. -/
theorem C5_transform_addressing_witness :
    (1 : Nat) < 4 ∧ inBounds 128 64 1 3 5 = true ∧
    (transform 1 128 64 3 5 = transformSpec 1 128 64 3 5 ∧
     getPixel 128 64 1 (fun _ => 7) 3 5 =
       ((fun _ => 7) ((transformSpec 1 128 64 3 5).1.toNat +
         (transformSpec 1 128 64 3 5).2.toNat / 8 * 128) : Nat).testBit
         ((transformSpec 1 128 64 3 5).2.toNat % 8) ∧
     drawPixel 128 64 1 (fun _ => 7) 3 5 2
         ((transformSpec 1 128 64 3 5).1.toNat +
           (transformSpec 1 128 64 3 5).2.toNat / 8 * 128) =
       pixelWrite
         ((fun _ => 7) ((transformSpec 1 128 64 3 5).1.toNat +
           (transformSpec 1 128 64 3 5).2.toNat / 8 * 128) : Nat)
         ((transformSpec 1 128 64 3 5).2.toNat % 8) 2 ∧
     ∀ i, i ≠ (transformSpec 1 128 64 3 5).1.toNat +
         (transformSpec 1 128 64 3 5).2.toNat / 8 * 128 →
       drawPixel 128 64 1 (fun _ => 7) 3 5 2 i = (fun _ => 7) i) :=
  ⟨by decide, by decide,
    C5_transform_addressing 128 64 1 (fun _ => 7) 3 5 2 (by decide) (by decide)⟩

/-- Witness for C6 at the out-of-bounds coordinate `(-1, 70)`. -/
theorem C6_oob_noop_witness :
    inBounds 128 64 0 (-1) 70 = false ∧
    (setPixelS 128 64 0
        { buffer := fun _ => 9, win := ⟨1024, 1024, -1, -1⟩ } (-1) 70 1 =
        { buffer := fun _ => 9, win := ⟨1024, 1024, -1, -1⟩ } ∧
     getPixelS 128 64 0
        { buffer := fun _ => 9, win := ⟨1024, 1024, -1, -1⟩ } (-1) 70 = false) :=
  ⟨by decide,
    C6_oob_noop 128 64 0 { buffer := fun _ => 9, win := ⟨1024, 1024, -1, -1⟩ }
      (-1) 70 1 (by decide)⟩


theorem payloadBytes_add (buf : Nat → Nat) (ptr a b : Nat) :
    payloadBytes buf ptr (a + b) =
      payloadBytes buf ptr a ++ payloadBytes buf (ptr + a) b := by
  unfold payloadBytes
  rw [List.range_add, List.map_append, List.map_map]
  congr 1
  apply List.map_congr_left
  intro i _
  simp [Nat.add_assoc]

theorem payloadBytes_length (buf : Nat → Nat) (ptr n : Nat) :
    (payloadBytes buf ptr n).length = n := by
  simp [payloadBytes]

theorem chunkAux_spec (buf : Nat → Nat) (mb8 : Nat) (hmb : 1 ≤ mb8) :
    ∀ fuel rem ptr, rem ≤ fuel →
      ∃ L, chunkAux buf mb8 fuel ptr rem = some L ∧
        L.flatten = payloadBytes buf ptr rem ∧
        L.map List.length = chunkSizesAux mb8 fuel rem := by
  intro fuel
  induction fuel with
  | zero =>
    intro rem ptr h
    interval_cases rem
    exact ⟨[], rfl, by simp [payloadBytes], rfl⟩
  | succ f ih =>
    intro rem ptr h
    match rem with
    | 0 => exact ⟨[], rfl, by simp [payloadBytes], rfl⟩
    | r + 1 =>
      have htw : ¬ (min (r + 1) mb8 = 0) := by omega
      obtain ⟨L', hL', hjoin, hsizes⟩ :=
        ih (r + 1 - min (r + 1) mb8) (ptr + min (r + 1) mb8) (by omega)
      refine ⟨payloadBytes buf ptr (min (r + 1) mb8) :: L', ?_, ?_, ?_⟩
      · simp only [chunkAux]
        rw [if_neg htw, hL']
        rfl
      · rw [List.flatten_cons, hjoin, ← payloadBytes_add]
        congr 1
        omega
      · rw [List.map_cons, hsizes, payloadBytes_length]
        rfl

theorem chunks_eq (buf : Nat → Nat) (ptr rem mb8 : Nat) (hmb : 1 ≤ mb8) :
    chunks buf ptr rem mb8 = some (chunkL buf ptr rem mb8) := by
  obtain ⟨L, hL, -, -⟩ := chunkAux_spec buf mb8 hmb rem rem ptr (le_refl rem)
  unfold chunkL chunks
  rw [hL]
  rfl

theorem chunkL_join (buf : Nat → Nat) (ptr rem mb8 : Nat) (hmb : 1 ≤ mb8) :
    (chunkL buf ptr rem mb8).flatten = payloadBytes buf ptr rem := by
  obtain ⟨L, hL, hjoin, -⟩ := chunkAux_spec buf mb8 hmb rem rem ptr (le_refl rem)
  unfold chunkL chunks
  rw [hL]
  exact hjoin

theorem chunkL_sizes (buf : Nat → Nat) (ptr rem mb8 : Nat) (hmb : 1 ≤ mb8) :
    (chunkL buf ptr rem mb8).map List.length = chunkSizes rem mb8 := by
  obtain ⟨L, hL, -, hsz⟩ := chunkAux_spec buf mb8 hmb rem rem ptr (le_refl rem)
  unfold chunkL chunks
  rw [hL]
  exact hsz

theorem chunkSizesAux_length (mb8 : Nat) (hmb : 1 ≤ mb8) :
    ∀ fuel rem, rem ≤ fuel →
      (chunkSizesAux mb8 fuel rem).length = (rem + mb8 - 1) / mb8 := by
  intro fuel
  induction fuel with
  | zero =>
    intro rem h
    interval_cases rem
    simp [chunkSizesAux]
    symm
    apply Nat.div_eq_of_lt
    omega
  | succ f ih =>
    intro rem h
    match rem with
    | 0 =>
      simp [chunkSizesAux]
      symm
      apply Nat.div_eq_of_lt
      omega
    | r + 1 =>
      show (min (r + 1) mb8 ::
        chunkSizesAux mb8 f (r + 1 - min (r + 1) mb8)).length = _
      rw [List.length_cons, ih _ (by omega)]
      rcases le_or_lt (r + 1) mb8 with hle | hlt
      · have h1 : r + 1 - min (r + 1) mb8 = 0 := by omega
        rw [h1]
        rw [show 0 + mb8 - 1 = mb8 - 1 by omega,
          Nat.div_eq_of_lt (show mb8 - 1 < mb8 by omega),
          show r + 1 + mb8 - 1 = r + mb8 by omega,
          Nat.add_div_right _ (by omega), Nat.div_eq_of_lt (by omega)]
      · have h1 : min (r + 1) mb8 = mb8 := by omega
        rw [h1, show r + 1 - mb8 + mb8 - 1 = r by omega,
          show r + 1 + mb8 - 1 = r + mb8 by omega,
          Nat.add_div_right _ (by omega)]

theorem chunkL_length (buf : Nat → Nat) (ptr rem mb8 : Nat) (hmb : 1 ≤ mb8) :
    (chunkL buf ptr rem mb8).length = (rem + mb8 - 1) / mb8 := by
  have h := chunkL_sizes buf ptr rem mb8 hmb
  have h2 : (chunkL buf ptr rem mb8).length =
      ((chunkL buf ptr rem mb8).map List.length).length := by
    rw [List.length_map]
  rw [h2, h]
  exact chunkSizesAux_length mb8 hmb rem rem (le_refl rem)

theorem chunkSizesAux_fuel (mb8 : Nat) (hmb : 1 ≤ mb8) :
    ∀ fuel fuel' rem, rem ≤ fuel → rem ≤ fuel' →
      chunkSizesAux mb8 fuel rem = chunkSizesAux mb8 fuel' rem := by
  intro fuel
  induction fuel with
  | zero =>
    intro fuel' rem h h'
    interval_cases rem
    cases fuel' <;> rfl
  | succ f ih =>
    intro fuel' rem h h'
    match rem, fuel' with
    | 0, fuel' => cases fuel' <;> rfl
    | r + 1, 0 => omega
    | r + 1, f' + 1 =>
      show min (r + 1) mb8 :: chunkSizesAux mb8 f (r + 1 - min (r + 1) mb8) =
        min (r + 1) mb8 :: chunkSizesAux mb8 f' (r + 1 - min (r + 1) mb8)
      congr 1
      exact ih f' _ (by omega) (by omega)

/-- The claim's chunking recurrence: each chunk's size is
`min(remaining, mb8)`, and the tail continues on the remainder. -/
theorem chunkSizes_rec (mb8 : Nat) (hmb : 1 ≤ mb8) (r : Nat) (hr : 1 ≤ r) :
    chunkSizes r mb8 = min r mb8 :: chunkSizes (r - min r mb8) mb8 := by
  match r, hr with
  | rr + 1, _ =>
    show chunkSizesAux mb8 (rr + 1) (rr + 1) = _
    rw [show chunkSizesAux mb8 (rr + 1) (rr + 1) = min (rr + 1) mb8 ::
      chunkSizesAux mb8 rr (rr + 1 - min (rr + 1) mb8) from rfl]
    congr 1
    exact chunkSizesAux_fuel mb8 hmb rr (rr + 1 - min (rr + 1) mb8) _
      (by omega) (le_refl _)


/-- C1 counterexample: on a 4 x 16 panel with dirty window `(0,0,0,8)`
(two pages, one byte each) and a transport that fails the first data
write (oracle index 1), `display` still sends the remaining page-select
and data writes, returns no failure, and resets the dirty window to the
empty sentinel `(1024, 1024, -1, -1)` — so after the failed mid-flush
transfer the dirty region retains nothing, contradicting the claim. -/
theorem C1_counterexample :
    display 4 16 (fun i => i) ⟨0, 0, 0, 8⟩ (some 32) (fun i => decide (i ≠ 1)) =
      DispOut.done
        [BusEvt.cmd [0, 176, 16, 0] true, BusEvt.data [0] false,
         BusEvt.cmd [0, 177, 16, 0] true, BusEvt.data [4] true]
        ⟨1024, 1024, -1, -1⟩ := by
  rfl

/-- C2 counterexample: the spec's own example — 128 x 64 panel, a single
pixel at `(10, 20)` dirtied, transport max chunk 32 — emits six
page-select commands (pages 2..7), not exactly one: the loop runs `p`
from `first_page` to the total page count, and the computed `last_page`
is never used. -/
theorem C2_counterexample :
    cmdCount (display 128 64 (fun _ => 0) ⟨10, 20, 10, 20⟩ (some 32)
        (fun _ => true)) = 6 ∧
    cmdCount (display 128 64 (fun _ => 0) ⟨10, 20, 10, 20⟩ (some 32)
        (fun _ => true)) ≠ 1 := by
  constructor <;> decide

/-- C3 counterexample: with `maxBufferSize() = 258` the `uint16_t`
`maxbuff = 257` is truncated to `uint8_t` 1 in the chunk-size `min`, so a
2-byte dirty range is sent as two 1-byte chunks instead of the single
chunk of size `min(2, 258 - 1) = 2` the claim requires. -/
theorem C3_counterexample :
    dataSizes (display 4 8 (fun _ => 3) ⟨0, 0, 1, 0⟩ (some 258)
        (fun _ => true)) = [1, 1] ∧
    (1 : Nat) ≠ min 2 (258 - 1) := by
  constructor <;> decide

/-- C9: evaluating the flush on an SPI-constructed object
(`i2c_dev == NULL`): line 237 `maxbuff = i2c_dev->maxBufferSize() - 1`
dereferences the null pointer before the `if (i2c_dev)` check of line 268
can skip the I2C path, so the call is undefined behaviour, not a guarded
precondition failure. -/
theorem C9_null_deref :
    display 4 8 (fun _ => 3) ⟨0, 0, 1, 0⟩ none (fun _ => true) =
      DispOut.nullDeref := by
  rfl

/-- Witness for C10 at colour 7. -/
theorem C10_unknown_color_witness :
    inBounds 128 64 0 10 20 = true ∧
    ((7 : Nat) ≠ 0 ∧ (7 : Nat) ≠ 1 ∧ (7 : Nat) ≠ 2) ∧
    drawPixel 128 64 0 (fun _ => 5) 10 20 7 = (fun _ => 5) :=
  ⟨by decide, by decide,
    C10_unknown_color 128 64 0 (fun _ => 5) 10 20 7 (by decide) (by decide)⟩

theorem attachOkFrom_strip (busOk : Nat → Bool) :
    ∀ (raw : List RawEvt) (i : Nat),
      (attachOkFrom i busOk raw).map stripOk = raw := by
  intro raw
  induction raw with
  | nil => intro i; rfl
  | cons e rest ih =>
    intro i
    cases e <;> simp [attachOkFrom, stripOk, ih]

theorem attachOk_strip (raw : List RawEvt) (busOk : Nat → Bool) :
    (attachOk raw busOk).map stripOk = raw :=
  attachOkFrom_strip busOk raw 0

theorem pageLoop_eq (buf : Nat → Nat) (bpp pstart rem mb8 : Nat)
    (hmb : 1 ≤ mb8) (ps : List Nat) :
    pageLoop buf bpp pstart rem mb8 ps =
      some (ps.bind fun p =>
        RawEvt.cmd [0, (176 + p) % 256, 16 + pstart / 16, pstart % 16] ::
          (chunkL buf (p * bpp + pstart) rem mb8).map RawEvt.data) := by
  induction ps with
  | nil => rfl
  | cons p rest ih =>
    simp only [pageLoop]
    rw [chunks_eq buf (p * bpp + pstart) rem mb8 hmb, ih]
    simp [List.cons_bind]

theorem toU8_natCast (n : Nat) (h : n < 256) : toU8 (n : Int) = n := by
  unfold toU8
  omega

theorem displayRaw_eq (W H : Nat) (buf : Nat → Nat) (a1 b1 a2 b2 maxB : Nat)
    (hW2 : W ≤ 255) (hH2 : H ≤ 2033)
    (h12 : a1 ≤ a2) (ha2 : a2 < W) (hb1 : b1 < H)
    (hmaxB : 2 ≤ maxB) (hmaxB2 : maxB ≤ 256) :
    displayRaw W H buf ⟨(a1 : Int), (b1 : Int), (a2 : Int), (b2 : Int)⟩ maxB =
      some (goodTrace buf W a1 (a2 - a1 + 1) (b1 / 8) ((H + 7) / 8)
        (maxB - 1)) := by
  simp only [displayRaw]
  have hbpp : W % 256 = W := Nat.mod_eq_of_lt (by omega)
  have ha1' : toU8 (a1 : Int) = a1 := toU8_natCast a1 (by omega)
  have hps : min W (toU8 (a1 : Int)) = a1 := by
    rw [ha1']
    exact Nat.min_eq_right (by omega)
  have hpe : toU8 (max 0 (a2 : Int)) = a2 := by
    rw [max_eq_right (Int.natCast_nonneg a2)]
    exact toU8_natCast a2 (by omega)
  have hfp : toU8 ((b1 : Int).tdiv 8) = b1 / 8 := by
    rw [show ((b1 : Int).tdiv 8) = ((b1 / 8 : Nat) : Int) from rfl]
    exact toU8_natCast _ (by omega)
  have hmb : ((maxB + 65535) % 65536) % 256 = maxB - 1 := by omega
  have hpg : (H + 7) / 8 % 256 = (H + 7) / 8 := by omega
  rw [hbpp, hps, hpe, hfp, hmb, hpg]
  have hrem : toU8 ((W : Int) - (a1 : Int) - (((W : Int) - 1) - (a2 : Int))) =
      a2 - a1 + 1 := by
    unfold toU8
    omega
  rw [hrem, pageLoop_eq buf W a1 (a2 - a1 + 1) (maxB - 1) (by omega)]
  rfl

theorem display_eq_match (W H : Nat) (buf : Nat → Nat) (win : Window)
    (maxB : Nat) (busOk : Nat → Bool) :
    display W H buf win (some maxB) busOk =
      match displayRaw W H buf win maxB with
      | none => DispOut.hang
      | some raw => DispOut.done (attachOk raw busOk) ⟨1024, 1024, -1, -1⟩ :=
  rfl

theorem display_done_inv (W H : Nat) (buf : Nat → Nat) (w : Window)
    (maxB : Nat) (busOk : Nat → Bool) (tr : List BusEvt) (w' : Window)
    (h : display W H buf w (some maxB) busOk = DispOut.done tr w') :
    ∃ raw, displayRaw W H buf w maxB = some raw ∧
      tr = attachOk raw busOk ∧ w' = ⟨1024, 1024, -1, -1⟩ := by
  rw [display_eq_match] at h
  rcases hraw : displayRaw W H buf w maxB with _ | raw
  · rw [hraw] at h
    exact DispOut.noConfusion h
  · rw [hraw] at h
    injection h with h1 h2
    exact ⟨raw, rfl, h1.symm, h2.symm⟩

theorem display_done_eq (W H : Nat) (buf : Nat → Nat) (a1 b1 a2 b2 maxB : Nat)
    (busOk : Nat → Bool)
    (hW2 : W ≤ 255) (hH2 : H ≤ 2033) (h12 : a1 ≤ a2) (ha2 : a2 < W)
    (hb1 : b1 < H) (hmaxB : 2 ≤ maxB) (hmaxB2 : maxB ≤ 256) :
    display W H buf ⟨(a1 : Int), (b1 : Int), (a2 : Int), (b2 : Int)⟩
        (some maxB) busOk =
      DispOut.done (attachOk (goodTrace buf W a1 (a2 - a1 + 1) (b1 / 8)
        ((H + 7) / 8) (maxB - 1)) busOk) ⟨1024, 1024, -1, -1⟩ := by
  rw [display_eq_match,
    displayRaw_eq W H buf a1 b1 a2 b2 maxB hW2 hH2 h12 ha2 hb1 hmaxB hmaxB2]

theorem filterMap_cmdSel_data (ds : List (List Nat)) :
    (ds.map RawEvt.data).filterMap cmdSel = [] := by
  induction ds with
  | nil => rfl
  | cons d rest ih => simp [cmdSel, ih]

theorem goodTrace_cmds_aux (buf : Nat → Nat) (W cs wdt mb8 : Nat)
    (ps : List Nat) :
    ((ps.bind fun p =>
        RawEvt.cmd [0, (176 + p) % 256, 16 + cs / 16, cs % 16] ::
          (chunkL buf (p * W + cs) wdt mb8).map RawEvt.data).filterMap cmdSel) =
      ps.map fun p => [0, (176 + p) % 256, 16 + cs / 16, cs % 16] := by
  induction ps with
  | nil => rfl
  | cons p rest ih =>
    simp [List.cons_bind, List.filterMap_append, cmdSel, filterMap_cmdSel_data, ih]

theorem goodTrace_cmds (buf : Nat → Nat) (W cs wdt fp pg mb8 : Nat) :
    (goodTrace buf W cs wdt fp pg mb8).filterMap cmdSel =
      (List.range' fp (pg - fp)).map
        fun p => [0, (176 + p) % 256, 16 + cs / 16, cs % 16] := by
  unfold goodTrace
  exact goodTrace_cmds_aux buf W cs wdt mb8 _

/-- C1 amended: `display` ignores the result of every bus write — a
failed chunk write aborts nothing and is not reported (the function
returns no status), the transaction sequence sent is independent of the
failure oracle, and the dirty window is reset to the empty sentinel
`(1024, 1024, -1, -1)` unconditionally at the end of every completed
flush, successful or not. -/
theorem C1_failure_ignored (W H : Nat) (buf : Nat → Nat) (w : Window)
    (maxB : Nat) (busOk busOk' : Nat → Bool) (tr : List BusEvt) (w' : Window)
    (h : display W H buf w (some maxB) busOk = DispOut.done tr w') :
    w' = ⟨1024, 1024, -1, -1⟩ ∧
    ∃ tr', display W H buf w (some maxB) busOk' = DispOut.done tr' w' ∧
      tr'.map stripOk = tr.map stripOk := by
  revert h
  show (match displayRaw W H buf w maxB with
    | none => DispOut.hang
    | some raw => DispOut.done (attachOk raw busOk) ⟨1024, 1024, -1, -1⟩) =
      DispOut.done tr w' → _
  cases hraw : displayRaw W H buf w maxB with
  | none =>
    intro h
    simp at h
  | some raw =>
    intro h
    injection h with htr hw
    refine ⟨hw.symm, attachOk raw busOk', ?_, ?_⟩
    · show (match displayRaw W H buf w maxB with
        | none => DispOut.hang
        | some raw => DispOut.done (attachOk raw busOk') ⟨1024, 1024, -1, -1⟩) = _
      rw [hraw, ← hw]
    · rw [← htr, attachOk_strip, attachOk_strip]

/-- C2 corrected: over a well-formed non-empty dirty window, `display`
computes `first_page = y1 / 8` and iterates `p` over `[first_page,
total_pages)` with `total_pages = (H + 7) / 8` — not over `[first_page,
last_page)`: the computed `last_page = (y2 + 7) / 8` (itself not
`ceil((y2 + 1) / 8)`) is a dead store.  For each visited page it issues
exactly one page-select command `{0x00, 0xB0 + p, 0x10 + (col_start >> 4),
col_start & 0xF}` and streams the bytes of columns `col_start..col_end`,
where `col_start = min(bytes_per_page, uint8(x1))` and
`col_end = uint8(max(0, x2))`; the number of page-select commands is
`total_pages - first_page`. -/
theorem C2_page_iteration (W H : Nat) (buf : Nat → Nat)
    (a1 b1 a2 b2 maxB : Nat) (busOk : Nat → Bool)
    (hW2 : W ≤ 255) (hH2 : H ≤ 2033)
    (h12 : a1 ≤ a2) (ha2 : a2 < W) (hb12 : b1 ≤ b2) (hb2 : b2 < H)
    (hmaxB : 2 ≤ maxB) (hmaxB2 : maxB ≤ 256) :
    display W H buf ⟨(a1 : Int), (b1 : Int), (a2 : Int), (b2 : Int)⟩
        (some maxB) busOk =
      DispOut.done (attachOk (goodTrace buf W a1 (a2 - a1 + 1) (b1 / 8)
        ((H + 7) / 8) (maxB - 1)) busOk) ⟨1024, 1024, -1, -1⟩ ∧
    (goodTrace buf W a1 (a2 - a1 + 1) (b1 / 8) ((H + 7) / 8)
        (maxB - 1)).filterMap cmdSel =
      (List.range' (b1 / 8) ((H + 7) / 8 - b1 / 8)).map
        (fun p => [0, (176 + p) % 256, 16 + a1 / 16, a1 % 16]) ∧
    ((goodTrace buf W a1 (a2 - a1 + 1) (b1 / 8) ((H + 7) / 8)
        (maxB - 1)).filterMap cmdSel).length = (H + 7) / 8 - b1 / 8 ∧
    lastPageDead (b2 : Int) = (b2 + 7) / 8 := by
  refine ⟨display_done_eq W H buf a1 b1 a2 b2 maxB busOk hW2 hH2 h12 ha2
      (by omega) hmaxB hmaxB2, ?_, ?_, ?_⟩
  · exact goodTrace_cmds buf W a1 (a2 - a1 + 1) (b1 / 8) ((H + 7) / 8) (maxB - 1)
  · rw [goodTrace_cmds buf W a1 (a2 - a1 + 1) (b1 / 8) ((H + 7) / 8) (maxB - 1)]
    rw [List.length_map, List.length_range']
  · unfold lastPageDead
    rw [show ((b2 : Int) + 7) = ((b2 + 7 : Nat) : Int) by push_cast; ring]
    rw [show (((b2 + 7 : Nat) : Int)).tdiv 8 = (((b2 + 7) / 8 : Nat) : Int)
      from rfl]
    exact toU8_natCast _ (by omega)

/-- C3 corrected: every data chunk has size
`min(remaining, (uint8_t)(maxBufferSize - 1))` — the `uint16_t` `maxbuff`
is truncated to `uint8_t` before the `min`.  For transports with
`2 ≤ maxBufferSize ≤ 256` this equals `min(remaining, maxBufferSize - 1)`,
and then a dirty width `w` splits into `ceil(w / (maxBufferSize - 1))`
data transfers per page whose concatenation, in send order, is exactly
the dirty column range of that page in the framebuffer. -/
theorem C3_chunking (W H : Nat) (buf : Nat → Nat)
    (a1 b1 a2 b2 maxB : Nat) (busOk : Nat → Bool)
    (hW2 : W ≤ 255) (hH2 : H ≤ 2033)
    (h12 : a1 ≤ a2) (ha2 : a2 < W) (hb12 : b1 ≤ b2) (hb2 : b2 < H)
    (hmaxB : 2 ≤ maxB) (hmaxB2 : maxB ≤ 256) :
    display W H buf ⟨(a1 : Int), (b1 : Int), (a2 : Int), (b2 : Int)⟩
        (some maxB) busOk =
      DispOut.done (attachOk (goodTrace buf W a1 (a2 - a1 + 1) (b1 / 8)
        ((H + 7) / 8) (maxB - 1)) busOk) ⟨1024, 1024, -1, -1⟩ ∧
    (∀ ptr, chunks buf ptr (a2 - a1 + 1) (maxB - 1) =
      some (chunkL buf ptr (a2 - a1 + 1) (maxB - 1))) ∧
    (∀ ptr, (chunkL buf ptr (a2 - a1 + 1) (maxB - 1)).map List.length =
      chunkSizes (a2 - a1 + 1) (maxB - 1)) ∧
    (∀ r, 1 ≤ r → chunkSizes r (maxB - 1) =
      min r (maxB - 1) :: chunkSizes (r - min r (maxB - 1)) (maxB - 1)) ∧
    (∀ ptr, (chunkL buf ptr (a2 - a1 + 1) (maxB - 1)).length =
      ((a2 - a1 + 1) + (maxB - 1) - 1) / (maxB - 1)) ∧
    (∀ ptr, (chunkL buf ptr (a2 - a1 + 1) (maxB - 1)).flatten =
      payloadBytes buf ptr (a2 - a1 + 1)) := by
  have hmb : 1 ≤ maxB - 1 := by omega
  refine ⟨display_done_eq W H buf a1 b1 a2 b2 maxB busOk hW2 hH2 h12 ha2
      (by omega) hmaxB hmaxB2, ?_, ?_, ?_, ?_, ?_⟩
  · exact fun ptr => chunks_eq buf ptr _ _ hmb
  · exact fun ptr => chunkL_sizes buf ptr _ _ hmb
  · exact fun r hr => chunkSizes_rec _ hmb r hr
  · exact fun ptr => chunkL_length buf ptr _ _ hmb
  · exact fun ptr => chunkL_join buf ptr _ _ hmb

/-- C8: flushing with the dirty window in the empty sentinel state
performs zero bus writes (the transcript is empty: no page-select
commands, no data transfers), and after any completed flush a second
flush with no intervening writes again performs zero bus writes. -/
theorem C8_empty_flush (W H maxB : Nat) (buf : Nat → Nat)
    (busOk busOk' : Nat → Bool) (w : Window) (tr : List BusEvt) (w' : Window)
    (hH : H ≤ 1017) :
    display W H buf ⟨1024, 1024, -1, -1⟩ (some maxB) busOk =
      DispOut.done [] ⟨1024, 1024, -1, -1⟩ ∧
    (display W H buf w (some maxB) busOk = DispOut.done tr w' →
      display W H buf w' (some maxB) busOk' = DispOut.done [] w') := by
  have h1 : displayRaw W H buf ⟨1024, 1024, -1, -1⟩ maxB = some [] := by
    simp only [displayRaw]
    have hfp : toU8 ((1024 : Int).tdiv 8) = 128 := by decide
    rw [hfp]
    have hpg : (H + 7) / 8 % 256 - 128 = 0 := by omega
    rw [hpg]
    rfl
  constructor
  · rw [display_eq_match, h1]
    rfl
  · intro h
    obtain ⟨raw, hraw, htr, hw⟩ :=
      display_done_inv W H buf w maxB busOk tr w' h
    rw [display_eq_match, hw, h1]
    rfl

/-- Witness for C1 at a 4 x 16 panel, dirty window `(0,0,0,8)`, transport
failing the first data write; the alternative oracle always succeeds. -/
theorem C1_failure_ignored_witness :
    display 4 16 (fun i => i) ⟨0, 0, 0, 8⟩ (some 32) (fun i => decide (i ≠ 1)) =
      DispOut.done
        [BusEvt.cmd [0, 176, 16, 0] true, BusEvt.data [0] false,
         BusEvt.cmd [0, 177, 16, 0] true, BusEvt.data [4] true]
        ⟨1024, 1024, -1, -1⟩ ∧
    ((⟨1024, 1024, -1, -1⟩ : Window) = ⟨1024, 1024, -1, -1⟩ ∧
     ∃ tr', display 4 16 (fun i => i) ⟨0, 0, 0, 8⟩ (some 32) (fun _ => true) =
        DispOut.done tr' ⟨1024, 1024, -1, -1⟩ ∧
       tr'.map stripOk =
        [BusEvt.cmd [0, 176, 16, 0] true, BusEvt.data [0] false,
         BusEvt.cmd [0, 177, 16, 0] true, BusEvt.data [4] true].map stripOk) :=
  ⟨by rfl,
    C1_failure_ignored 4 16 (fun i => i) ⟨0, 0, 0, 8⟩ 32
      (fun i => decide (i ≠ 1)) (fun _ => true)
      [BusEvt.cmd [0, 176, 16, 0] true, BusEvt.data [0] false,
       BusEvt.cmd [0, 177, 16, 0] true, BusEvt.data [4] true]
      ⟨1024, 1024, -1, -1⟩ (by rfl)⟩

/-- Witness for C2 at the spec's example: 128 x 64 panel, single dirty
pixel `(10, 20)`, transport max 32. -/
theorem C2_page_iteration_witness :
    ((128 : Nat) ≤ 255 ∧ (64 : Nat) ≤ 2033 ∧ (10 : Nat) ≤ 10 ∧
     (10 : Nat) < 128 ∧ (20 : Nat) ≤ 20 ∧ (20 : Nat) < 64 ∧
     (2 : Nat) ≤ 32 ∧ (32 : Nat) ≤ 256) ∧
    (display 128 64 (fun _ => 17) ⟨(10 : Nat), (20 : Nat), (10 : Nat), (20 : Nat)⟩
        (some 32) (fun _ => true) =
      DispOut.done (attachOk (goodTrace (fun _ => 17) 128 10 (10 - 10 + 1)
        (20 / 8) ((64 + 7) / 8) (32 - 1)) (fun _ => true)) ⟨1024, 1024, -1, -1⟩ ∧
    (goodTrace (fun _ => 17) 128 10 (10 - 10 + 1) (20 / 8) ((64 + 7) / 8)
        (32 - 1)).filterMap cmdSel =
      (List.range' (20 / 8) ((64 + 7) / 8 - 20 / 8)).map
        (fun p => [0, (176 + p) % 256, 16 + 10 / 16, 10 % 16]) ∧
    ((goodTrace (fun _ => 17) 128 10 (10 - 10 + 1) (20 / 8) ((64 + 7) / 8)
        (32 - 1)).filterMap cmdSel).length = (64 + 7) / 8 - 20 / 8 ∧
    lastPageDead ((20 : Nat) : Int) = (20 + 7) / 8) :=
  ⟨by decide,
    C2_page_iteration 128 64 (fun _ => 17) 10 20 10 20 32 (fun _ => true)
      (by decide) (by decide) (by decide) (by decide) (by decide) (by decide)
      (by decide) (by decide)⟩

/-- Witness for C3 at a 2-column dirty width with transport max 32. -/
theorem C3_chunking_witness :
    ((128 : Nat) ≤ 255 ∧ (64 : Nat) ≤ 2033 ∧ (10 : Nat) ≤ 11 ∧
     (11 : Nat) < 128 ∧ (20 : Nat) ≤ 20 ∧ (20 : Nat) < 64 ∧
     (2 : Nat) ≤ 32 ∧ (32 : Nat) ≤ 256) ∧
    (display 128 64 (fun i => i % 256)
        ⟨(10 : Nat), (20 : Nat), (11 : Nat), (20 : Nat)⟩
        (some 32) (fun _ => true) =
      DispOut.done (attachOk (goodTrace (fun i => i % 256) 128 10 (11 - 10 + 1)
        (20 / 8) ((64 + 7) / 8) (32 - 1)) (fun _ => true)) ⟨1024, 1024, -1, -1⟩ ∧
    (∀ ptr, chunks (fun i => i % 256) ptr (11 - 10 + 1) (32 - 1) =
      some (chunkL (fun i => i % 256) ptr (11 - 10 + 1) (32 - 1))) ∧
    (∀ ptr, (chunkL (fun i => i % 256) ptr (11 - 10 + 1) (32 - 1)).map
        List.length = chunkSizes (11 - 10 + 1) (32 - 1)) ∧
    (∀ r, 1 ≤ r → chunkSizes r (32 - 1) =
      min r (32 - 1) :: chunkSizes (r - min r (32 - 1)) (32 - 1)) ∧
    (∀ ptr, (chunkL (fun i => i % 256) ptr (11 - 10 + 1) (32 - 1)).length =
      ((11 - 10 + 1) + (32 - 1) - 1) / (32 - 1)) ∧
    (∀ ptr, (chunkL (fun i => i % 256) ptr (11 - 10 + 1) (32 - 1)).flatten =
      payloadBytes (fun i => i % 256) ptr (11 - 10 + 1))) :=
  ⟨by decide,
    C3_chunking 128 64 (fun i => i % 256) 10 20 11 20 32 (fun _ => true)
      (by decide) (by decide) (by decide) (by decide) (by decide) (by decide)
      (by decide) (by decide)⟩

/-- Witness for C8 at a 4 x 8 panel. -/
theorem C8_empty_flush_witness :
    (8 : Nat) ≤ 1017 ∧
    (display 4 8 (fun _ => 5) ⟨1024, 1024, -1, -1⟩ (some 32) (fun _ => true) =
      DispOut.done [] ⟨1024, 1024, -1, -1⟩ ∧
    (display 4 8 (fun _ => 5) ⟨0, 0, 0, 0⟩ (some 32) (fun _ => true) =
        DispOut.done [BusEvt.cmd [0, 176, 16, 0] true, BusEvt.data [5] true]
          ⟨1024, 1024, -1, -1⟩ →
      display 4 8 (fun _ => 5) ⟨1024, 1024, -1, -1⟩ (some 32) (fun _ => false) =
        DispOut.done [] ⟨1024, 1024, -1, -1⟩)) :=
  ⟨by decide,
    C8_empty_flush 4 8 32 (fun _ => 5) (fun _ => true) (fun _ => false)
      ⟨0, 0, 0, 0⟩ [BusEvt.cmd [0, 176, 16, 0] true, BusEvt.data [5] true]
      ⟨1024, 1024, -1, -1⟩ (by decide)⟩

end SH110X
